import Mathlib

/-!
Shallow embedding of the streaming chat UI in `src/streamlit/app.py`
(SKN19-3rd-2team): the event adapter `stream_agent_response`, the session
message store manipulated by `process_user_input`, the transcript renderer
`display_chat_messages`, and the session reset performed in `main`.

Raw agent events are dictionaries mapping a node name to a payload that may
carry a `messages` list; the adapter translates them to the five adapted
event kinds and catches every fault of the underlying generator.
-/

/-- A message stored in `st.session_state.messages`: a Python dict with a
`role` string, an optional `content` entry and an optional `tool_name`
entry.  Presence of the `content` key is modelled by `Option`. -/
structure Message where
  role : String
  content : Option String
  tool_name : Option String
deriving DecidableEq, Repr

/-- A raw message inside an agent event payload (a LangChain message):
`tool_calls` is the list of requested tool invocation names
(`tool_calls[i]['name']`), `content` its text content. -/
structure RawMessage where
  tool_calls : List String
  content : String
deriving DecidableEq, Repr

/-- The payload of one node of a raw event.  `messages = none` models a
payload without a `"messages"` key (the `"messages" in value` test fails);
`some l` models a payload whose `"messages"` entry is the list `l`. -/
structure RawValue where
  messages : Option (List RawMessage)
deriving DecidableEq, Repr

/-- One raw event produced by `agent_executor.stream`: a dict from node
names to payloads, iterated in insertion order via `event.items()`. -/
abbrev RawEvent := List (String × RawValue)

/-- The adapted events yielded by `stream_agent_response`. -/
inductive AdaptedEvent where
  | tool_call (tool_name : String)
  | tool_result (length : Nat)
  | answer (content : String)
  | final (content : String) (tool_calls : List Message)
  | error (message : String)
deriving DecidableEq, Repr

/-- The dict appended to `tool_calls_info` (and to the local `tool_calls`
list of `process_user_input`) for a requested tool invocation. -/
def toolMsg (tool_name : String) : Message :=
  { role := "tool", content := some ("도구 실행: " ++ tool_name),
    tool_name := some tool_name }

/-- Local accumulation state of `stream_agent_response`:
`final_answer` and `tool_calls_info`. -/
structure AdapterState where
  final_answer : String
  tool_calls_info : List Message
deriving DecidableEq, Repr

/-- The last message of the payload, `value["messages"][-1]`, when the
payload has a (non-empty) message list. -/
def lastMsg? (v : RawValue) : Option RawMessage :=
  v.messages.bind List.getLast?

/-- The body of the inner loop of `stream_agent_response` for one
`(node_name, value)` item: either the events yielded together with the
updated accumulation state, or the description of the fault raised
(indexing `[-1]` into an empty `messages` list). -/
def processPair (node_name : String) (v : RawValue) (s : AdapterState) :
    Except String (List AdaptedEvent × AdapterState) :=
  match v.messages with
  | none => .ok ([], s)
  | some msgs =>
    match msgs.getLast? with
    | none => .error "list index out of range"
    | some last_message =>
      if node_name = "agent" then
        match last_message.tool_calls with
        | tool_name :: _ =>
          .ok ([.tool_call tool_name],
               { s with tool_calls_info := s.tool_calls_info ++ [toolMsg tool_name] })
        | [] =>
          if last_message.content ≠ "" then
            .ok ([.answer last_message.content],
                 { s with final_answer := last_message.content })
          else
            .ok ([], s)
      else if node_name = "tools" then
        .ok ([.tool_result (String.length last_message.content)], s)
      else
        .ok ([], s)

/-- The inner loop `for node_name, value in event.items()`: process all items of one raw
event, collecting the yielded events; a fault aborts the remainder of the
event but keeps the events already yielded. -/
def processEvent : RawEvent → AdapterState →
    List AdaptedEvent × Except String AdapterState
  | [], s => ([], .ok s)
  | (n, v) :: rest, s =>
    match processPair n v s with
    | .error m => ([], .error m)
    | .ok (out, s') =>
      let (out', r) := processEvent rest s'
      (out ++ out', r)

/-- The outer loop `for event in agent_executor.stream(...)` over the raw
event sequence. -/
def runLoop : List RawEvent → AdapterState →
    List AdaptedEvent × Except String AdapterState
  | [], s => ([], .ok s)
  | e :: rest, s =>
    match processEvent e s with
    | (out, .error m) => (out, .error m)
    | (out, .ok s') =>
      let (out', r) := runLoop rest s'
      (out ++ out', r)

/-- The generator `stream_agent_response(agent_executor, user_input, thread_id)`, with
the raw stream produced by the external agent given as input: `events` are
the raw events the generator yields and `fault = some m` models the
generator raising a fault (with description `m`) after those events.
`user_input` and `thread_id` only parameterize the external call and do
not influence the translation.  Yields the adapted event list: the
translation of every consumed raw event, then a single `error` event if a
fault was raised, otherwise a closing `final` event if a running final
answer was recorded. -/
def stream_agent_response (user_input thread_id : String)
    (events : List RawEvent) (fault : Option String) : List AdaptedEvent :=
  match runLoop events { final_answer := "", tool_calls_info := [] } with
  | (out, .error m) => out ++ [.error m]
  | (out, .ok s) =>
    match fault with
    | some m => out ++ [.error m]
    | none =>
      if s.final_answer ≠ "" then
        out ++ [.final s.final_answer s.tool_calls_info]
      else
        out

/-- The user message appended by `process_user_input`. -/
def userMsg (user_input : String) : Message :=
  { role := "user", content := some user_input, tool_name := none }

/-- The assistant message appended by `process_user_input`. -/
def assistantMsg (final_answer : String) : Message :=
  { role := "assistant", content := some final_answer, tool_name := none }

/-- The event consumption loop of `process_user_input`: threads the local
`final_answer` and `tool_calls` variables and the session message list;
an `error` event returns at once (skipping the post-loop appends), and
after the loop the assistant message and the collected tool messages are
appended when `final_answer` is non-empty. -/
def consumeAdapted : List AdaptedEvent → String → List Message →
    List Message → List Message
  | [], final_answer, tool_calls, msgs =>
    if final_answer ≠ "" then
      (msgs ++ [assistantMsg final_answer]) ++ tool_calls
    else
      msgs
  | e :: rest, final_answer, tool_calls, msgs =>
    match e with
    | .tool_call tool_name =>
      consumeAdapted rest final_answer (tool_calls ++ [toolMsg tool_name]) msgs
    | .tool_result _ => consumeAdapted rest final_answer tool_calls msgs
    | .answer content => consumeAdapted rest content tool_calls msgs
    | .final content _ => consumeAdapted rest content tool_calls msgs
    | .error _ => msgs

/-- The function `process_user_input(user_input, agent_executor)` restricted to its
effect on `st.session_state.messages`: appends the user message, then
consumes the adapted event stream of the cycle. -/
def process_user_input (user_input : String) (adapted : List AdaptedEvent)
    (messages : List Message) : List Message :=
  consumeAdapted adapted "" [] (messages ++ [userMsg user_input])

/-- One rendered transcript entry of `display_chat_messages`. -/
inductive Rendered where
  | userText (content : String)
  | assistantText (content : String)
  | toolRunning (tool_name : String)
deriving DecidableEq, Repr

/-- The renderer `display_chat_messages()`: replays the stored messages.  Reading
`message["content"]` of a message without a `content` entry raises a
`KeyError`, modelled by `none`; a message whose role matches no branch
renders nothing. -/
def display_chat_messages : List Message → Option (List Rendered)
  | [] => some []
  | m :: rest => do
    let content ← m.content
    let rest' ← display_chat_messages rest
    if m.role = "user" then
      pure (.userText content :: rest')
    else if m.role = "assistant" then
      pure (.assistantText content :: rest')
    else if m.role = "tool" then
      pure (.toolRunning (m.tool_name.getD "도구") :: rest')
    else
      pure rest'

/-- The entry a single stored message renders to. -/
def renderOne (m : Message) : Rendered :=
  if m.role = "user" then .userText (m.content.getD "")
  else if m.role = "assistant" then .assistantText (m.content.getD "")
  else .toolRunning (m.tool_name.getD "도구")

/-- The session state held in `st.session_state`: the message list and the
`thread_id`. -/
structure SessionState where
  messages : List Message
  thread_id : String
deriving DecidableEq, Repr

/-- The reset performed by the sidebar button in `main`:
`st.session_state.messages = []` and `st.session_state.thread_id =
str(uuid.uuid4())`, with the freshly generated identifier given as
input. -/
def resetSession (_s : SessionState) (freshId : String) : SessionState :=
  { messages := [], thread_id := freshId }

/-- A plain Python list append, `st.session_state.messages.append(m)`. -/
def appendMessage (messages : List Message) (m : Message) : List Message :=
  messages ++ [m]

/-- The validity requirement the specification states for appended
messages: a recognized role, and a present `content` for the user and
assistant roles. -/
def validMessage (m : Message) : Prop :=
  (m.role = "user" ∨ m.role = "assistant" ∨ m.role = "tool") ∧
  ((m.role = "user" ∨ m.role = "assistant") → m.content.isSome)

instance (m : Message) : Decidable (validMessage m) := by
  unfold validMessage; infer_instance

/-- The initial accumulation state of one response cycle. -/
def initState : AdapterState := { final_answer := "", tool_calls_info := [] }

/-- All `(node_name, value)` items of a raw event sequence, in consumption
order (outer loop over events, inner loop over items). -/
def allPairs (events : List RawEvent) : List (String × RawValue) :=
  events.flatMap (fun e => e)

/-- The name of the first requested tool invocation of a reasoning-stage
item whose last message carries a non-empty invocation list, `none` for
every other item. -/
def rawFirstToolName? (p : String × RawValue) : Option String :=
  if p.1 = "agent" then (lastMsg? p.2).bind (fun m => m.tool_calls.head?)
  else none

/-- The text content of a reasoning-stage item whose last message has no
requested tool invocations and non-empty content, `none` for every other
item. -/
def answerContent? (p : String × RawValue) : Option String :=
  if p.1 = "agent" then
    match lastMsg? p.2 with
    | some m => if m.tool_calls = [] ∧ m.content ≠ "" then some m.content else none
    | none => none
  else none

/-- The tool name carried by a `tool_call` event. -/
def toolCallName? : AdaptedEvent → Option String
  | .tool_call tool_name => some tool_name
  | _ => none

/-- Whether an adapted event is a `final` event. -/
def isFinal : AdaptedEvent → Bool
  | .final _ _ => true
  | _ => false

/-- Whether an adapted event is an `error` event. -/
def isError : AdaptedEvent → Bool
  | .error _ => true
  | _ => false

/-- The events `stream_agent_response` yields for one item of a raw
event, as a function of the item alone. -/
def pairOut (node_name : String) (v : RawValue) : List AdaptedEvent :=
  match lastMsg? v with
  | none => []
  | some last_message =>
    if node_name = "agent" then
      match last_message.tool_calls with
      | tool_name :: _ => [.tool_call tool_name]
      | [] =>
        if last_message.content ≠ "" then [.answer last_message.content] else []
    else if node_name = "tools" then
      [.tool_result (String.length last_message.content)]
    else []

/-- The accumulation-state update performed for one item of a raw
event. -/
def pairStep (node_name : String) (v : RawValue) (s : AdapterState) : AdapterState :=
  match lastMsg? v with
  | none => s
  | some last_message =>
    if node_name = "agent" then
      match last_message.tool_calls with
      | tool_name :: _ =>
        { s with tool_calls_info := s.tool_calls_info ++ [toolMsg tool_name] }
      | [] =>
        if last_message.content ≠ "" then { s with final_answer := last_message.content }
        else s
    else s

/-- All events yielded inside the consumption loop for a pair sequence. -/
def adapterEmit (pairs : List (String × RawValue)) : List AdaptedEvent :=
  pairs.flatMap (fun p => pairOut p.1 p.2)

/-- The accumulation state after a pair sequence. -/
def adapterFold (pairs : List (String × RawValue)) (s : AdapterState) : AdapterState :=
  pairs.foldl (fun s p => pairStep p.1 p.2 s) s

theorem processPair_wf (n : String) (v : RawValue) (s : AdapterState)
    (h : v.messages ≠ some []) :
    processPair n v s = .ok (pairOut n v, pairStep n v s) := by
  cases hm : v.messages with
  | none => simp [processPair, pairOut, pairStep, lastMsg?, hm]
  | some msgs =>
    cases hl : msgs.getLast? with
    | none =>
      exact absurd (by rw [List.getLast?_eq_none_iff.mp hl] at hm; exact hm) h
    | some last_message =>
      simp only [processPair, pairOut, pairStep, lastMsg?, hm, hl, Option.some_bind]
      by_cases hn : n = "agent"
      · subst hn
        simp only [if_pos rfl]
        cases last_message.tool_calls with
        | nil => by_cases hc : last_message.content = "" <;> simp [hc]
        | cons tn rest => rfl
      · by_cases ht : n = "tools"
        · subst ht; simp
        · simp [hn, ht]

theorem processEvent_wf (e : RawEvent) (s : AdapterState)
    (h : ∀ p ∈ e, (p.2).messages ≠ some []) :
    processEvent e s = (adapterEmit e, .ok (adapterFold e s)) := by
  induction e generalizing s with
  | nil => rfl
  | cons p rest ih =>
    obtain ⟨n, v⟩ := p
    rw [processEvent, processPair_wf n v s (h (n, v) (by simp))]
    dsimp only
    rw [ih (pairStep n v s) (fun q hq => h q (by simp [hq]))]
    simp [adapterEmit, adapterFold]

theorem allPairs_cons (e : RawEvent) (rest : List RawEvent) :
    allPairs (e :: rest) = e ++ allPairs rest := by
  simp [allPairs]

theorem runLoop_cons_ok (e : RawEvent) (rest : List RawEvent) (s : AdapterState)
    (out : List AdaptedEvent) (s' : AdapterState)
    (hp : processEvent e s = (out, .ok s')) :
    runLoop (e :: rest) s =
      (out ++ (runLoop rest s').1, (runLoop rest s').2) := by
  rw [runLoop, hp]

theorem runLoop_wf (events : List RawEvent) (s : AdapterState)
    (h : ∀ p ∈ allPairs events, (p.2).messages ≠ some []) :
    runLoop events s =
      (adapterEmit (allPairs events), .ok (adapterFold (allPairs events) s)) := by
  induction events generalizing s with
  | nil => rfl
  | cons e rest ih =>
    have h1 : ∀ p ∈ e, (p.2).messages ≠ some [] :=
      fun q hq => h q (by simp [allPairs_cons, hq])
    have h2 : ∀ p ∈ allPairs rest, (p.2).messages ≠ some [] :=
      fun q hq => h q (by simp [allPairs_cons, hq])
    rw [runLoop_cons_ok e rest s _ _ (processEvent_wf e s h1)]
    rw [ih (adapterFold e s) h2]
    simp [allPairs_cons, adapterEmit, adapterFold, List.flatMap_append]

theorem pairStep_final_answer (n : String) (v : RawValue) (s : AdapterState) :
    (pairStep n v s).final_answer = (answerContent? (n, v)).getD s.final_answer := by
  simp only [pairStep, answerContent?]
  cases hm : lastMsg? v with
  | none => by_cases hn : n = "agent" <;> simp [hn]
  | some last_message =>
    by_cases hn : n = "agent"
    · subst hn
      simp only [if_pos rfl]
      cases hc : last_message.tool_calls with
      | nil => by_cases he : last_message.content = "" <;> simp [he]
      | cons tn rest => simp
    · simp [hn]

theorem pairStep_tool_calls_info (n : String) (v : RawValue) (s : AdapterState) :
    (pairStep n v s).tool_calls_info =
      s.tool_calls_info ++ ((rawFirstToolName? (n, v)).toList.map toolMsg) := by
  simp only [pairStep, rawFirstToolName?]
  cases hm : lastMsg? v with
  | none => by_cases hn : n = "agent" <;> simp [hn]
  | some last_message =>
    by_cases hn : n = "agent"
    · subst hn
      simp only [if_pos rfl, Option.some_bind]
      cases hc : last_message.tool_calls with
      | nil => by_cases he : last_message.content = "" <;> simp [he]
      | cons tn rest => simp
    · simp [hn]

theorem pairOut_filterMap_toolCall (n : String) (v : RawValue) :
    (pairOut n v).filterMap toolCallName? = (rawFirstToolName? (n, v)).toList := by
  simp only [pairOut, rawFirstToolName?]
  cases hm : lastMsg? v with
  | none => by_cases hn : n = "agent" <;> simp [hn]
  | some last_message =>
    by_cases hn : n = "agent"
    · subst hn
      simp only [if_pos rfl, Option.some_bind]
      cases hc : last_message.tool_calls with
      | nil =>
        by_cases he : last_message.content = "" <;> simp [he, toolCallName?]
      | cons tn rest => simp [toolCallName?]
    · by_cases ht : n = "tools" <;> simp [hn, ht, toolCallName?]

theorem pairOut_no_final_no_error (n : String) (v : RawValue) :
    ∀ e ∈ pairOut n v, isFinal e = false ∧ isError e = false := by
  simp only [pairOut]
  cases hm : lastMsg? v with
  | none => simp
  | some last_message =>
    by_cases hn : n = "agent"
    · subst hn
      simp only [if_pos rfl]
      cases hc : last_message.tool_calls with
      | nil =>
        by_cases he : last_message.content = "" <;> simp [he, isFinal, isError]
      | cons tn rest => simp [isFinal, isError]
    · by_cases ht : n = "tools" <;> simp [hn, ht, isFinal, isError]

theorem getLast?_cons_getD (c : String) (l : List String) (d : String) :
    ((c :: l).getLast?).getD d = (l.getLast?).getD c := by
  cases l with
  | nil => rfl
  | cons b l' =>
    rw [List.getLast?_cons_cons]
    cases hb : (b :: l').getLast? with
    | none => exact absurd (List.getLast?_eq_none_iff.mp hb) (by simp)
    | some x => rfl

theorem adapterFold_final_answer (pairs : List (String × RawValue))
    (s : AdapterState) :
    (adapterFold pairs s).final_answer =
      ((pairs.filterMap answerContent?).getLast?).getD s.final_answer := by
  induction pairs generalizing s with
  | nil => rfl
  | cons p rest ih =>
    obtain ⟨n, v⟩ := p
    have step : adapterFold ((n, v) :: rest) s = adapterFold rest (pairStep n v s) := rfl
    rw [step, ih, pairStep_final_answer, List.filterMap_cons]
    cases hc : answerContent? (n, v) with
    | none => simp [hc]
    | some c => simp [hc, getLast?_cons_getD]

theorem adapterFold_tool_calls_info (pairs : List (String × RawValue))
    (s : AdapterState) :
    (adapterFold pairs s).tool_calls_info =
      s.tool_calls_info ++ ((pairs.filterMap rawFirstToolName?).map toolMsg) := by
  induction pairs generalizing s with
  | nil => simp [adapterFold]
  | cons p rest ih =>
    obtain ⟨n, v⟩ := p
    have step : adapterFold ((n, v) :: rest) s = adapterFold rest (pairStep n v s) := rfl
    rw [step, ih, pairStep_tool_calls_info, List.filterMap_cons]
    cases hc : rawFirstToolName? (n, v) <;> simp [hc]

theorem adapterEmit_cons (p : String × RawValue) (rest : List (String × RawValue)) :
    adapterEmit (p :: rest) = pairOut p.1 p.2 ++ adapterEmit rest := by
  simp [adapterEmit]

theorem adapterEmit_toolCalls (pairs : List (String × RawValue)) :
    (adapterEmit pairs).filterMap toolCallName? =
      pairs.filterMap rawFirstToolName? := by
  induction pairs with
  | nil => rfl
  | cons p rest ih =>
    obtain ⟨n, v⟩ := p
    rw [adapterEmit_cons, List.filterMap_append, List.filterMap_cons]
    have hpo : (pairOut (n, v).1 (n, v).2).filterMap toolCallName? =
        (rawFirstToolName? (n, v)).toList := pairOut_filterMap_toolCall n v
    rw [hpo, ih]
    cases hc : rawFirstToolName? (n, v) <;> simp [hc]

theorem adapterEmit_no_final_no_error (pairs : List (String × RawValue)) :
    ∀ e ∈ adapterEmit pairs, isFinal e = false ∧ isError e = false := by
  induction pairs with
  | nil => simp [adapterEmit]
  | cons p rest ih =>
    intro e he
    rw [adapterEmit_cons] at he
    rcases List.mem_append.mp he with h | h
    · exact pairOut_no_final_no_error p.1 p.2 e h
    · exact ih e h

theorem answerContent?_ne_empty (p : String × RawValue) (c : String)
    (h : answerContent? p = some c) : c ≠ "" := by
  unfold answerContent? at h
  by_cases hn : p.1 = "agent"
  · rw [if_pos hn] at h
    cases hm : lastMsg? p.2 with
    | none => rw [hm] at h; exact absurd h (by simp)
    | some m =>
      rw [hm] at h
      dsimp only at h
      by_cases hc : m.tool_calls = [] ∧ m.content ≠ ""
      · rw [if_pos hc] at h
        exact (Option.some.inj h) ▸ hc.2
      · rw [if_neg hc] at h; exact absurd h (by simp)
  · rw [if_neg hn] at h; exact absurd h (by simp)

/-- The closing events of a fault-free cycle: one `final` event carrying
the last recorded answer and the tool-call log, or nothing when no answer
was recorded. -/
def finalTail (pairs : List (String × RawValue)) : List AdaptedEvent :=
  match (pairs.filterMap answerContent?).getLast? with
  | some c => [.final c ((pairs.filterMap rawFirstToolName?).map toolMsg)]
  | none => []

theorem stream_agent_response_wf (u t : String) (events : List RawEvent)
    (h : ∀ p ∈ allPairs events, (p.2).messages ≠ some []) :
    stream_agent_response u t events none =
      adapterEmit (allPairs events) ++ finalTail (allPairs events) := by
  unfold stream_agent_response
  rw [runLoop_wf events { final_answer := "", tool_calls_info := [] } h]
  dsimp only
  rw [adapterFold_final_answer, adapterFold_tool_calls_info]
  unfold finalTail
  cases hc : ((allPairs events).filterMap answerContent?).getLast? with
  | none => simp [hc]
  | some c =>
    have hcne : c ≠ "" := by
      obtain ⟨p, hp, hpc⟩ :=
        List.mem_filterMap.mp (List.mem_of_mem_getLast? hc)
      exact answerContent?_ne_empty p c hpc
    simp [hc, hcne]

theorem stream_agent_response_fault (u t : String) (events : List RawEvent)
    (m : String) (h : ∀ p ∈ allPairs events, (p.2).messages ≠ some []) :
    stream_agent_response u t events (some m) =
      adapterEmit (allPairs events) ++ [.error m] := by
  unfold stream_agent_response
  rw [runLoop_wf events { final_answer := "", tool_calls_info := [] } h]

/-- The value of the local `final_answer` variable of `process_user_input`
after consuming a list of adapted events, starting from `fa`. -/
def finalAnswerOf : List AdaptedEvent → String → String
  | [], fa => fa
  | .answer content :: rest, _ => finalAnswerOf rest content
  | .final content _ :: rest, _ => finalAnswerOf rest content
  | _ :: rest, fa => finalAnswerOf rest fa

theorem consumeAdapted_error (adapted : List AdaptedEvent)
    (h : ∃ e ∈ adapted, isError e = true) :
    ∀ fa tcs msgs, consumeAdapted adapted fa tcs msgs = msgs := by
  induction adapted with
  | nil => simp at h
  | cons e rest ih =>
    intro fa tcs msgs
    cases e with
    | error m => rfl
    | tool_call n =>
      refine ih ?_ _ _ _
      obtain ⟨x, hx, hxe⟩ := h
      rcases List.mem_cons.mp hx with h1 | h1
      · subst h1; simp [isError] at hxe
      · exact ⟨x, h1, hxe⟩
    | tool_result len =>
      refine ih ?_ _ _ _
      obtain ⟨x, hx, hxe⟩ := h
      rcases List.mem_cons.mp hx with h1 | h1
      · subst h1; simp [isError] at hxe
      · exact ⟨x, h1, hxe⟩
    | answer c =>
      refine ih ?_ _ _ _
      obtain ⟨x, hx, hxe⟩ := h
      rcases List.mem_cons.mp hx with h1 | h1
      · subst h1; simp [isError] at hxe
      · exact ⟨x, h1, hxe⟩
    | final c log =>
      refine ih ?_ _ _ _
      obtain ⟨x, hx, hxe⟩ := h
      rcases List.mem_cons.mp hx with h1 | h1
      · subst h1; simp [isError] at hxe
      · exact ⟨x, h1, hxe⟩

theorem consumeAdapted_no_error (adapted : List AdaptedEvent)
    (h : ∀ e ∈ adapted, isError e = false) :
    ∀ fa tcs msgs, consumeAdapted adapted fa tcs msgs =
      if finalAnswerOf adapted fa ≠ "" then
        (msgs ++ [assistantMsg (finalAnswerOf adapted fa)]) ++
          (tcs ++ (adapted.filterMap toolCallName?).map toolMsg)
      else msgs := by
  induction adapted with
  | nil =>
    intro fa tcs msgs
    by_cases hfa : fa = "" <;> simp [consumeAdapted, finalAnswerOf, hfa]
  | cons e rest ih =>
    intro fa tcs msgs
    have h' : ∀ x ∈ rest, isError x = false := fun x hx => h x (by simp [hx])
    cases e with
    | error m => simp [isError] at h
    | tool_call n =>
      show consumeAdapted rest fa (tcs ++ [toolMsg n]) msgs = _
      rw [ih h']
      by_cases hfa : finalAnswerOf rest fa = "" <;>
        simp [finalAnswerOf, toolCallName?, hfa, List.filterMap_cons]
    | tool_result len =>
      show consumeAdapted rest fa tcs msgs = _
      rw [ih h']
      by_cases hfa : finalAnswerOf rest fa = "" <;>
        simp [finalAnswerOf, toolCallName?, hfa, List.filterMap_cons]
    | answer c =>
      show consumeAdapted rest c tcs msgs = _
      rw [ih h']
      by_cases hfa : finalAnswerOf rest c = "" <;>
        simp [finalAnswerOf, toolCallName?, hfa, List.filterMap_cons]
    | final c log =>
      show consumeAdapted rest c tcs msgs = _
      rw [ih h']
      by_cases hfa : finalAnswerOf rest c = "" <;>
        simp [finalAnswerOf, toolCallName?, hfa, List.filterMap_cons]

theorem validMessage_userMsg (u : String) : validMessage (userMsg u) :=
  ⟨Or.inl rfl, fun _ => rfl⟩

theorem validMessage_assistantMsg (c : String) : validMessage (assistantMsg c) :=
  ⟨Or.inr (Or.inl rfl), fun _ => rfl⟩

theorem validMessage_toolMsg (n : String) : validMessage (toolMsg n) :=
  ⟨Or.inr (Or.inr rfl), fun _ => rfl⟩

theorem consumeAdapted_extends (adapted : List AdaptedEvent) :
    ∀ fa tcs msgs, (∀ m ∈ tcs, validMessage m) →
      ∃ rest, consumeAdapted adapted fa tcs msgs = msgs ++ rest ∧
        ∀ m ∈ rest, validMessage m := by
  induction adapted with
  | nil =>
    intro fa tcs msgs htcs
    by_cases hfa : fa = ""
    · exact ⟨[], by simp [consumeAdapted, hfa], by simp⟩
    · refine ⟨assistantMsg fa :: tcs, by simp [consumeAdapted, hfa], ?_⟩
      intro m hm
      rcases List.mem_cons.mp hm with h1 | h1
      · rw [h1]; exact validMessage_assistantMsg fa
      · exact htcs m h1
  | cons e rest ih =>
    intro fa tcs msgs htcs
    cases e with
    | error m => exact ⟨[], by simp [consumeAdapted], by simp⟩
    | tool_call n =>
      refine ih fa (tcs ++ [toolMsg n]) msgs ?_
      intro m hm
      rcases List.mem_append.mp hm with h1 | h1
      · exact htcs m h1
      · rw [List.mem_singleton.mp h1]; exact validMessage_toolMsg n
    | tool_result len => exact ih fa tcs msgs htcs
    | answer c => exact ih c tcs msgs htcs
    | final c log => exact ih c tcs msgs htcs

theorem display_chat_messages_eq_map (msgs : List Message)
    (hrole : ∀ m ∈ msgs, m.role = "user" ∨ m.role = "assistant" ∨ m.role = "tool")
    (hcontent : ∀ m ∈ msgs, (m.content).isSome = true) :
    display_chat_messages msgs = some (msgs.map renderOne) := by
  induction msgs with
  | nil => rfl
  | cons m rest ih =>
    obtain ⟨c, hc⟩ := Option.isSome_iff_exists.mp (hcontent m (by simp))
    have ihr := ih (fun x hx => hrole x (by simp [hx]))
      (fun x hx => hcontent x (by simp [hx]))
    rcases hrole m (by simp) with hr | hr | hr <;>
      simp [display_chat_messages, hc, ihr, renderOne, hr]

/-- A reasoning-stage message requesting two tools (only the first name is
ever reported). -/
def msgToolReq : RawMessage :=
  { tool_calls := ["lookup_ipc_code", "tool_search_patent"], content := "" }

/-- A tool-execution-stage message with content of length 3. -/
def msgToolOut : RawMessage := { tool_calls := [], content := "xyz" }

/-- A reasoning-stage answer message with no tool invocations. -/
def msgAnswer : RawMessage :=
  { tool_calls := [], content := "Classification G06F applies." }

/-- The scenario raw stream of the specification: a tool request, a tool
result, then the final answer. -/
def sampleEvents : List RawEvent :=
  [[("agent", { messages := some [msgToolReq] })],
   [("tools", { messages := some [msgToolOut] })],
   [("agent", { messages := some [msgAnswer] })]]

/-- C1: over any fault-free raw stream, the adapter emits exactly one
`tool_call` event per reasoning-stage item whose last message carries a
non-empty tool-invocation list, in input order, each carrying the first
requested invocation's name. -/
theorem tool_call_events_match_agent_requests (u t : String)
    (events : List RawEvent)
    (wf : ∀ p ∈ allPairs events, (p.2).messages ≠ some []) :
    (stream_agent_response u t events none).filterMap toolCallName? =
      (allPairs events).filterMap rawFirstToolName? := by
  rw [stream_agent_response_wf u t events wf, List.filterMap_append,
    adapterEmit_toolCalls]
  unfold finalTail
  cases hc : ((allPairs events).filterMap answerContent?).getLast? <;>
    simp [toolCallName?]

theorem tool_call_events_match_agent_requests_witness :
    (∀ p ∈ allPairs sampleEvents, (p.2).messages ≠ some []) ∧
    (stream_agent_response "q" "tid" sampleEvents none).filterMap toolCallName? =
      (allPairs sampleEvents).filterMap rawFirstToolName? :=
  ⟨by decide,
   tool_call_events_match_agent_requests "q" "tid" sampleEvents (by decide)⟩

/-- C3: a fault while consuming the raw stream yields the translation of
the events consumed before it, followed by exactly one `error` event as
the last emitted event, and no `final` event; the function returns the
list instead of re-raising. -/
theorem fault_single_error_no_final (u t : String) (events : List RawEvent)
    (m : String)
    (wf : ∀ p ∈ allPairs events, (p.2).messages ≠ some []) :
    stream_agent_response u t events (some m) =
      adapterEmit (allPairs events) ++ [.error m] ∧
    (∀ e ∈ adapterEmit (allPairs events), isError e = false) ∧
    ((stream_agent_response u t events (some m)).filter isError).length = 1 ∧
    (stream_agent_response u t events (some m)).getLast? = some (.error m) ∧
    (∀ e ∈ stream_agent_response u t events (some m), isFinal e = false) := by
  have hs := stream_agent_response_fault u t events m wf
  have hne : ∀ e ∈ adapterEmit (allPairs events), isError e = false :=
    fun e he => (adapterEmit_no_final_no_error (allPairs events) e he).2
  refine ⟨hs, hne, ?_, ?_, ?_⟩
  · rw [hs, List.filter_append]
    have h0 : (adapterEmit (allPairs events)).filter isError = [] :=
      List.filter_eq_nil_iff.mpr (fun e he => by simp [hne e he])
    rw [h0]
    rfl
  · rw [hs]; simp
  · intro e he
    rw [hs] at he
    rcases List.mem_append.mp he with h1 | h1
    · exact (adapterEmit_no_final_no_error (allPairs events) e h1).1
    · rw [List.mem_singleton.mp h1]; rfl

theorem fault_single_error_no_final_witness :
    (∀ p ∈ allPairs sampleEvents, (p.2).messages ≠ some []) ∧
    (stream_agent_response "q" "tid" sampleEvents (some "boom") =
      adapterEmit (allPairs sampleEvents) ++ [.error "boom"] ∧
    (∀ e ∈ adapterEmit (allPairs sampleEvents), isError e = false) ∧
    ((stream_agent_response "q" "tid" sampleEvents (some "boom")).filter
      isError).length = 1 ∧
    (stream_agent_response "q" "tid" sampleEvents (some "boom")).getLast? =
      some (.error "boom") ∧
    (∀ e ∈ stream_agent_response "q" "tid" sampleEvents (some "boom"),
      isFinal e = false)) :=
  ⟨by decide, fault_single_error_no_final "q" "tid" sampleEvents "boom" (by decide)⟩

/-- C10: the adapter is a pure function of the consumed raw events: the
user input and the thread identifier (which only parameterize the external
call) do not influence the emitted adapted event sequence, so two runs
over the same raw stream emit identical sequences. -/
theorem stream_agent_response_deterministic (u u' t t' : String)
    (events : List RawEvent) (fault : Option String) :
    stream_agent_response u t events fault =
      stream_agent_response u' t' events fault := rfl

/-- C2: over any fault-free raw stream, a `final` event appears at most
once and only as the last emitted event (after every `tool_call`,
`tool_result` and `answer` event); it appears only if some
reasoning-stage item carried non-empty text content and no tool
invocations, and it carries the text of the last such answer together
with the ordered log of all tool-call events of the cycle. -/
theorem final_event_terminal_and_content (u t : String)
    (events : List RawEvent)
    (wf : ∀ p ∈ allPairs events, (p.2).messages ≠ some []) :
    (∀ e ∈ (stream_agent_response u t events none).dropLast, isFinal e = false) ∧
    ((stream_agent_response u t events none).filter isFinal).length ≤ 1 ∧
    ((∃ e ∈ stream_agent_response u t events none, isFinal e = true) →
      ∃ p ∈ allPairs events, answerContent? p ≠ none) ∧
    (∀ c log, AdaptedEvent.final c log ∈ stream_agent_response u t events none →
      some c = ((allPairs events).filterMap answerContent?).getLast? ∧
      log = ((allPairs events).filterMap rawFirstToolName?).map toolMsg) := by
  have hs := stream_agent_response_wf u t events wf
  have hnf : ∀ e ∈ adapterEmit (allPairs events), isFinal e = false :=
    fun e he => (adapterEmit_no_final_no_error (allPairs events) e he).1
  have hfe : (adapterEmit (allPairs events)).filter isFinal = [] :=
    List.filter_eq_nil_iff.mpr (fun e he => by simp [hnf e he])
  unfold finalTail at hs
  cases hc : ((allPairs events).filterMap answerContent?).getLast? with
  | none =>
    rw [hc] at hs
    rw [List.append_nil] at hs
    refine ⟨?_, ?_, ?_, ?_⟩
    · intro e he
      exact hnf e (hs ▸ List.mem_of_mem_dropLast (hs ▸ he))
    · rw [hs, hfe]; simp
    · rintro ⟨e, he, hf⟩
      rw [hs] at he
      rw [hnf e he] at hf
      cases hf
    · intro c log hmem
      rw [hs] at hmem
      have := hnf _ hmem
      simp [isFinal] at this
  | some c0 =>
    rw [hc] at hs
    refine ⟨?_, ?_, ?_, ?_⟩
    · intro e he
      rw [hs] at he
      simp only [List.dropLast_append] at he
      simp at he
      exact hnf e he
    · rw [hs, List.filter_append, hfe]
      simp [isFinal]
    · intro _
      obtain ⟨p, hp, hpc⟩ :=
        List.mem_filterMap.mp (List.mem_of_mem_getLast? hc)
      exact ⟨p, hp, by simp [hpc]⟩
    · intro c log hmem
      rw [hs] at hmem
      rcases List.mem_append.mp hmem with h1 | h1
      · have := hnf _ h1
        simp [isFinal] at this
      · have h2 := List.mem_singleton.mp h1
        have hcc : c = c0 ∧
            log = ((allPairs events).filterMap rawFirstToolName?).map toolMsg := by
          have := AdaptedEvent.final.injEq c log c0
            (((allPairs events).filterMap rawFirstToolName?).map toolMsg) ▸ h2
          exact ⟨this.1, this.2⟩
        exact ⟨congrArg some hcc.1, hcc.2⟩

theorem final_event_terminal_and_content_witness :
    (∀ p ∈ allPairs sampleEvents, (p.2).messages ≠ some []) ∧
    ((∀ e ∈ (stream_agent_response "q" "tid" sampleEvents none).dropLast,
        isFinal e = false) ∧
     ((stream_agent_response "q" "tid" sampleEvents none).filter isFinal).length ≤ 1 ∧
     ((∃ e ∈ stream_agent_response "q" "tid" sampleEvents none, isFinal e = true) →
       ∃ p ∈ allPairs sampleEvents, answerContent? p ≠ none) ∧
     (∀ c log,
        AdaptedEvent.final c log ∈ stream_agent_response "q" "tid" sampleEvents none →
        some c = ((allPairs sampleEvents).filterMap answerContent?).getLast? ∧
        log = ((allPairs sampleEvents).filterMap rawFirstToolName?).map toolMsg)) :=
  ⟨by decide, final_event_terminal_and_content "q" "tid" sampleEvents (by decide)⟩

/-- C4: a response cycle whose adapted stream contains an `error` event
leaves the session store equal to its prior contents plus only the user's
own message: no assistant and no tool-role message is appended. -/
theorem error_cycle_keeps_only_user_message (u : String)
    (adapted : List AdaptedEvent) (messages : List Message)
    (h : ∃ e ∈ adapted, isError e = true) :
    process_user_input u adapted messages = messages ++ [userMsg u] := by
  unfold process_user_input
  exact consumeAdapted_error adapted h "" [] (messages ++ [userMsg u])

/-- The adapted stream of a cycle that failed after one tool call. -/
def sampleErrorAdapted : List AdaptedEvent :=
  [.tool_call "lookup_ipc_code", .error "boom"]

theorem error_cycle_keeps_only_user_message_witness :
    (∃ e ∈ sampleErrorAdapted, isError e = true) ∧
    process_user_input "hi" sampleErrorAdapted [] = [] ++ [userMsg "hi"] :=
  ⟨by decide,
   error_cycle_keeps_only_user_message "hi" sampleErrorAdapted [] (by decide)⟩

/-- C9: at the end of a fault-free cycle, if a final answer was recorded
the store receives exactly one assistant message carrying it, followed by
one tool-role message per `tool_call` event in emission order; otherwise
nothing beyond the user's message is appended, even when `tool_call`
events occurred. -/
theorem fault_free_cycle_appends_answer_then_tool_log (u : String)
    (adapted : List AdaptedEvent) (messages : List Message)
    (h : ∀ e ∈ adapted, isError e = false) :
    process_user_input u adapted messages =
      (messages ++ [userMsg u]) ++
        (if finalAnswerOf adapted "" ≠ "" then
          assistantMsg (finalAnswerOf adapted "") ::
            (adapted.filterMap toolCallName?).map toolMsg
        else []) := by
  unfold process_user_input
  rw [consumeAdapted_no_error adapted h "" [] (messages ++ [userMsg u])]
  by_cases hfa : finalAnswerOf adapted "" = "" <;> simp [hfa]

/-- The adapted stream of the specification's fault-free scenario. -/
def sampleAdapted : List AdaptedEvent :=
  [.tool_call "lookup_ipc_code", .tool_result 3,
   .answer "Classification G06F applies.",
   .final "Classification G06F applies." [toolMsg "lookup_ipc_code"]]

theorem fault_free_cycle_appends_answer_then_tool_log_witness :
    (∀ e ∈ sampleAdapted, isError e = false) ∧
    process_user_input "hi" sampleAdapted [] =
      ([] ++ [userMsg "hi"]) ++
        (if finalAnswerOf sampleAdapted "" ≠ "" then
          assistantMsg (finalAnswerOf sampleAdapted "") ::
            (sampleAdapted.filterMap toolCallName?).map toolMsg
        else []) :=
  ⟨by decide,
   fault_free_cycle_appends_answer_then_tool_log "hi" sampleAdapted [] (by decide)⟩

/-- C5 counterexample: the store's append is a plain list append and
performs no validation at all — a message with an unrecognized role and no
content is added anyway, so "a message violating these requirements is not
added" fails. -/
theorem append_admits_invalid_message :
    appendMessage [] { role := "banana", content := none, tool_name := none } =
      [{ role := "banana", content := none, tool_name := none }] ∧
    ¬ validMessage { role := "banana", content := none, tool_name := none } :=
  ⟨rfl, by decide⟩

/-- C5 amended: `append` adds any message unconditionally (it is a bare
list append with no validation); nevertheless every message the program
itself appends through `process_user_input` satisfies the requirements:
a recognized role, and content present for the user/assistant roles. -/
theorem append_unvalidated_but_program_messages_valid (u : String)
    (adapted : List AdaptedEvent) (messages : List Message) :
    (∀ msgs m, appendMessage msgs m = msgs ++ [m]) ∧
    ∃ appended, process_user_input u adapted messages = messages ++ appended ∧
      ∀ m ∈ appended, validMessage m := by
  refine ⟨fun _ _ => rfl, ?_⟩
  obtain ⟨rest, hr, hv⟩ :=
    consumeAdapted_extends adapted "" [] (messages ++ [userMsg u]) (by simp)
  refine ⟨userMsg u :: rest, ?_, ?_⟩
  · unfold process_user_input
    rw [hr, List.append_assoc]
    rfl
  · intro m hm
    rcases List.mem_cons.mp hm with h1 | h1
    · rw [h1]; exact validMessage_userMsg u
    · exact hv m h1

/-- C6: rendering a stored list of N messages with recognized roles (and,
as the data model guarantees, present content) yields exactly N entries in
stored order; tool-role entries render only their tool name, never the
tool's result content. -/
theorem render_roundtrip_preserves_count_and_order (msgs : List Message)
    (hrole : ∀ m ∈ msgs, m.role = "user" ∨ m.role = "assistant" ∨ m.role = "tool")
    (hcontent : ∀ m ∈ msgs, (m.content).isSome = true) :
    display_chat_messages msgs = some (msgs.map renderOne) ∧
    (msgs.map renderOne).length = msgs.length ∧
    (∀ m ∈ msgs, m.role = "tool" →
      renderOne m = .toolRunning (m.tool_name.getD "도구")) := by
  refine ⟨display_chat_messages_eq_map msgs hrole hcontent, by simp, ?_⟩
  intro m hm hr
  simp [renderOne, hr]

/-- A stored transcript: a user turn, an assistant turn and a tool
notice. -/
def sampleStored : List Message :=
  [userMsg "질문", assistantMsg "답변", toolMsg "lookup_ipc_code"]

theorem render_roundtrip_preserves_count_and_order_witness :
    (∀ m ∈ sampleStored,
      m.role = "user" ∨ m.role = "assistant" ∨ m.role = "tool") ∧
    (∀ m ∈ sampleStored, (m.content).isSome = true) ∧
    (display_chat_messages sampleStored = some (sampleStored.map renderOne) ∧
     (sampleStored.map renderOne).length = sampleStored.length ∧
     (∀ m ∈ sampleStored, m.role = "tool" →
       renderOne m = .toolRunning (m.tool_name.getD "도구"))) :=
  ⟨by decide, by decide,
   render_roundtrip_preserves_count_and_order sampleStored (by decide) (by decide)⟩

/-- C7: resetting leaves the message list empty and installs the freshly
generated identifier, which differs from the previous one whenever the
generated token is new (the guarantee `uuid.uuid4()` provides). -/
theorem reset_clears_messages_and_changes_id (s : SessionState)
    (freshId : String) (h : freshId ≠ s.thread_id) :
    (resetSession s freshId).messages = [] ∧
    (resetSession s freshId).thread_id = freshId ∧
    (resetSession s freshId).thread_id ≠ s.thread_id :=
  ⟨rfl, rfl, h⟩

theorem reset_clears_messages_and_changes_id_witness :
    ("b" ≠ "a") ∧
    ((resetSession { messages := [userMsg "x"], thread_id := "a" } "b").messages = [] ∧
     (resetSession { messages := [userMsg "x"], thread_id := "a" } "b").thread_id = "b" ∧
     (resetSession { messages := [userMsg "x"], thread_id := "a" } "b").thread_id ≠ "a") :=
  ⟨by decide,
   reset_clears_messages_and_changes_id
     { messages := [userMsg "x"], thread_id := "a" } "b" (by decide)⟩

theorem processPair_tools (v : RawValue) (last_message : RawMessage)
    (s : AdapterState) (h : lastMsg? v = some last_message) :
    processPair "tools" v s =
      .ok ([.tool_result (String.length last_message.content)], s) := by
  unfold lastMsg? at h
  obtain ⟨msgs, hm, hl⟩ := Option.bind_eq_some.mp h
  simp [processPair, hm, hl]

/-- C8: for a tool-execution-stage item carrying a (non-empty) message
list, the adapter emits exactly one `tool_result` event whose length field
is the length of the stringified content of the last message; the emission
depends only on that length, never on the content itself. -/
theorem tools_event_reports_length_only (s : AdapterState) (v : RawValue)
    (last_message : RawMessage) (h : lastMsg? v = some last_message) :
    processPair "tools" v s =
      .ok ([.tool_result (String.length last_message.content)], s) ∧
    (∀ v' last' s', lastMsg? v' = some last' →
      String.length last'.content = String.length last_message.content →
      processPair "tools" v' s' =
        .ok ([.tool_result (String.length last_message.content)], s')) := by
  refine ⟨processPair_tools v last_message s h, ?_⟩
  intro v' last' s' h' hlen
  rw [processPair_tools v' last' s' h', hlen]

theorem tools_event_reports_length_only_witness :
    (lastMsg? { messages := some [msgToolOut] } = some msgToolOut) ∧
    (processPair "tools" { messages := some [msgToolOut] } initState =
      .ok ([.tool_result (String.length msgToolOut.content)], initState) ∧
    (∀ v' last' s', lastMsg? v' = some last' →
      String.length last'.content = String.length msgToolOut.content →
      processPair "tools" v' s' =
        .ok ([.tool_result (String.length msgToolOut.content)], s'))) :=
  ⟨by decide,
   tools_event_reports_length_only initState
     { messages := some [msgToolOut] } msgToolOut (by decide)⟩
